import Mathlib

/-!
Verification development for the `monoimporter` package
(`src/pkg/monoimporter/monoimporter.go`): a monorepo-compatible
`types.Importer` for Go packages.  The Go code is shallowly embedded:

* the filesystem and the zip archives are an explicit, read-only `FS`
  oracle (directory test, file-open success, zip-open result);
* an opened `io.ReadCloser` is a `Stream` value naming the backing
  entry that was opened;
* the external decoding collaborator (`gcexportdata`) is an explicit
  `Decoder` argument;
* `Importer.Import` is a pure function that also returns the list of
  strategies invoked, the stream found, the list of streams closed and
  the number of decode calls, so resource and invocation claims are
  statable.

Go library helpers (`strings.TrimPrefix`, `strings.Split`,
`strings.HasSuffix`, `filepath.Base`, `filepath.Join`,
`filepath.Match`, Go map insert/lookup) are modelled over `List Char`
so that every definition evaluates by `decide`/`rfl`.
-/

namespace Monoimporter

/-- Model of Go `strings.TrimPrefix pre s`: drop `pre` from the front of
`s` when it is a prefix, otherwise return `s` unchanged. -/
def trimPre (pre s : String) : String :=
  if pre.data.isPrefixOf s.data then String.mk (s.data.drop pre.data.length) else s

/-- Model of Go `strings.HasSuffix s suf`. -/
def hasSuf (s suf : String) : Bool :=
  suf.data.isSuffixOf s.data

/-- Loop of `splitOnChar`: accumulates the current chunk (reversed). -/
def splitCharAux (sep : Char) : List Char → List Char → List String
  | [], acc => [String.mk acc.reverse]
  | c :: cs, acc =>
    if c = sep then String.mk acc.reverse :: splitCharAux sep cs []
    else splitCharAux sep cs (c :: acc)

/-- Model of Go `strings.Split s sep` for a one-character separator
(the source only splits on `":"` and the model of `filepath.Match`
only splits a pattern on the star). -/
def splitOnChar (sep : Char) (s : String) : List String :=
  splitCharAux sep s.data []

/-- Model of Go `filepath.Base`: empty path gives `"."`, trailing
slashes are dropped, the last path element is returned, an all-slash
path gives `"/"`. -/
def filepathBase (path : String) : String :=
  if path.data = [] then "."
  else
    let p := (path.data.reverse.dropWhile (· = '/')).reverse
    if p = [] then "/"
    else String.mk (p.reverse.takeWhile (· ≠ '/')).reverse

/-- Model of Go `filepath.Join dir name` for the one call site
(`stdlibArchives.findAndOpen`), where `name` always begins with `'/'`
and `dir` is an already-clean path: the cleaned concatenation is just
`dir ++ name`. -/
def filepathJoin (dir name : String) : String :=
  dir ++ name

/-- `matchOneStar a b name`: `name` matches the glob pattern
`a ++ "*" ++ b`, i.e. `name = a ++ m ++ b` for some `m` containing no
path separator.  The split is unique, so checking the one candidate
split suffices. -/
def matchOneStar (a b name : String) : Bool :=
  a.data.isPrefixOf name.data &&
    (let rest := name.data.drop a.data.length
     b.data.isSuffixOf rest &&
       !(rest.take (rest.length - b.data.length)).contains '/')

/-- Model of Go `filepath.Match pattern name` restricted to patterns
containing exactly one `'*'` and no other metacharacter — the only
patterns `NewFromZips` produces (`GOOS_GOARCH*[_suffix].x.zip`). -/
def filepathMatchSingleStar (pattern name : String) : Bool :=
  match splitOnChar '*' pattern with
  | [a, b] => matchOneStar a b name
  | _ => false

/-- Go map lookup over an insertion sequence: the last binding of a key
wins, as with repeated `m[k] = v` assignments. -/
def goMapLookup {α : Type} (m : List (String × α)) (k : String) : Option α :=
  m.foldl (fun acc p => if p.1 = k then some p.2 else acc) none

/-- `go/build.Context`: the fields `goEnvDir` and the importer read. -/
structure BuildContext where
  GOOS : String
  GOARCH : String
  InstallSuffix : String
deriving DecidableEq, Repr

/-- `goEnvDir`: the Go build context directory name,
`GOOS_GOARCH[_InstallSuffix]`. -/
def goEnvDir (ctxt : BuildContext) : String :=
  let suf := if ctxt.InstallSuffix.data.length > 0 then "_" ++ ctxt.InstallSuffix else ""
  ctxt.GOOS ++ "_" ++ ctxt.GOARCH ++ suf

/-- An opened byte stream (`io.ReadCloser`), identified by the backing
entry it reads: a zip-archive entry or a filesystem file. -/
inductive Stream where
  | zipEntry (name : String)
  | file (path : String)
deriving DecidableEq, Repr

/-- One entry of a zip archive's table of contents: its name, and
whether `(*zip.File).Open` succeeds on it. -/
structure ZipFile where
  name : String
  openOk : Bool
deriving DecidableEq, Repr

/-- The read-only world the importer runs against: `os.Stat`-is-a-directory,
`os.Open` success, and `zip.OpenReader` outcome per path. -/
structure FS where
  isDir : String → Bool
  openOk : String → Bool
  zipOpen : String → Option (List ZipFile)

/-- `zipReader`: the bundle strategy over a stdlib zip archive, with its
name-to-entry index (kept as the insertion sequence; Go map semantics
via `goMapLookup`). -/
structure ZipReader where
  ctxt : BuildContext
  files : List ZipFile
deriving DecidableEq, Repr

/-- `newZipReader`: builds the bundle strategy from a zip reader's file
list (the index is the insertion sequence itself). -/
def newZipReader (stdlib : List ZipFile) (ctxt : BuildContext) : ZipReader :=
  { ctxt := ctxt, files := stdlib }

/-- `zipReader.findAndOpen`: strip the `google3/` monorepo root, form
the exact key `<goEnvDir>/<pkg>.x`, look it up in the index, and open
the entry; a missing key or a failed open yields no stream. -/
def ZipReader.findAndOpen (z : ZipReader) (pkg : String) : Option Stream :=
  let pkg := trimPre "google3/" pkg
  let name := goEnvDir z.ctxt ++ "/" ++ pkg ++ ".x"
  match goMapLookup (z.files.map fun f => (f.name, f)) name with
  | none => none
  | some f => if f.openOk then some (Stream.zipEntry f.name) else none

/-- `stdlibArchives`: the directory/archive strategy for bazel Go
standard library archives. -/
structure StdlibArchives where
  ctxt : BuildContext
  archs : List String
deriving DecidableEq, Repr

/-- Loop body of `stdlibArchives.findAndOpen` over the candidate list:
a directory candidate is tried via `<candidate><name>`, a file
candidate via suffix match; a failed open falls through. -/
def stdlibFindLoop (fs : FS) (name : String) : List String → Option Stream
  | [] => none
  | filename :: rest =>
    if fs.isDir filename ∧ fs.openOk (filepathJoin filename name) then
      some (Stream.file (filepathJoin filename name))
    else if hasSuf filename name ∧ fs.openOk filename then
      some (Stream.file filename)
    else stdlibFindLoop fs name rest

/-- `stdlibArchives.findAndOpen`: key is `/<goEnvDir>/<pkg>.a`; each
candidate is tried first as a directory, then by path suffix. -/
def StdlibArchives.findAndOpen (fs : FS) (a : StdlibArchives) (pkg : String) : Option Stream :=
  let name := "/" ++ goEnvDir a.ctxt ++ "/" ++ pkg ++ ".a"
  stdlibFindLoop fs name a.archs

/-- `unmappedArchives`: the suffix strategy for blaze non-stdlib
dependencies, whose file path equals their import path. -/
structure UnmappedArchives where
  archs : List String
deriving DecidableEq, Repr

/-- Loop body of `unmappedArchives.findAndOpen`: first suffix-matching
candidate that opens successfully wins; a failed open falls through. -/
def unmappedFindLoop (fs : FS) (name : String) : List String → Option Stream
  | [] => none
  | filename :: rest =>
    if hasSuf filename name ∧ fs.openOk filename then some (Stream.file filename)
    else unmappedFindLoop fs name rest

/-- `unmappedArchives.findAndOpen`: strip the `google3/` root, key is
`/<pkg>.x`, matched by path suffix. -/
def UnmappedArchives.findAndOpen (fs : FS) (a : UnmappedArchives) (pkg : String) : Option Stream :=
  let pkg := trimPre "google3/" pkg
  let name := "/" ++ pkg ++ ".x"
  unmappedFindLoop fs name a.archs

/-- `mappedArchives`: the exact import-path-to-file map strategy for
bazel non-stdlib dependencies (insertion sequence, Go map semantics). -/
structure MappedArchives where
  pkgs : List (String × String)
deriving DecidableEq, Repr

/-- `mappedArchives.findAndOpen`: exact map lookup, then open; a
missing key or a failed open yields no stream. -/
def MappedArchives.findAndOpen (fs : FS) (a : MappedArchives) (pkg : String) : Option Stream :=
  match goMapLookup a.pkgs pkg with
  | some filename => if fs.openOk filename then some (Stream.file filename) else none
  | none => none

/-- The `finder` interface: the four strategy implementations. -/
inductive Finder where
  | zip (z : ZipReader)
  | mapped (m : MappedArchives)
  | stdlib (s : StdlibArchives)
  | unmapped (u : UnmappedArchives)
deriving DecidableEq, Repr

/-- Dispatch `findAndOpen` over the four strategies. -/
def Finder.findAndOpen (fs : FS) : Finder → String → Option Stream
  | .zip z, pkg => z.findAndOpen pkg
  | .mapped m, pkg => m.findAndOpen fs pkg
  | .stdlib s, pkg => s.findAndOpen fs pkg
  | .unmapped u, pkg => u.findAndOpen fs pkg

/-- `find`, instrumented: walks the finder list in order, skips `nil`
finders, returns the first non-empty stream together with the list of
strategies actually invoked (a finder after the first match is never
invoked, so it never appears in the trace). -/
def findWithTrace (fs : FS) : List (Option Finder) → String → Option Stream × List Finder
  | [], _ => (none, [])
  | none :: rest, pkg => findWithTrace fs rest pkg
  | some f :: rest, pkg =>
    match f.findAndOpen fs pkg with
    | some file => (some file, [f])
    | none =>
      let r := findWithTrace fs rest pkg
      (r.1, f :: r.2)

/-- `find`: the stream component of the instrumented chain walk. -/
def find (fs : FS) (finders : List (Option Finder)) (pkg : String) : Option Stream :=
  (findWithTrace fs finders pkg).1

/-- A `*types.Package` as the importer observes it: its path and
whether it is complete. -/
structure Package where
  path : String
  complete : Bool
deriving DecidableEq, Repr

/-- `types.Unsafe`: the built-in unsafe pseudo-package. It is complete. -/
def typesUnsafePkg : Package :=
  { path := "unsafe", complete := true }

/-- The errors the embedded code can return: `fmt.Errorf` not-found
(carrying only the import path), the malformed mapped-archive
configuration error (carrying the split parts, as the Go `%q` of
`nameAndFile` does), a `zip.OpenReader` failure, a
`gcexportdata.NewReader` failure, and a decoder error. -/
inductive GoError where
  | notFound (importPath : String)
  | malformedArchive (nameAndFile : List String)
  | zipOpenError (path : String)
  | newReaderError (s : Stream)
  | decodeError (msg : String)
deriving DecidableEq, Repr

/-- The `Importer` struct: cache of imported packages (Go map as
insertion sequence) and the four optional strategies (`nil` pointers
become `none`). -/
structure Importer where
  imports : List (String × Package)
  mapped : Option MappedArchives
  unmapped : Option UnmappedArchives
  stdlib : Option StdlibArchives
  stdlibZip : Option ZipReader
deriving DecidableEq, Repr

/-- `New`: cache pre-seeded with `types.Unsafe` under `"unsafe"`; the
bundle strategy is built only when a stdlib zip is present. -/
def New (ctxt : BuildContext) (ua : Option UnmappedArchives) (ma : Option MappedArchives)
    (sa : Option StdlibArchives) (stdlibZip : Option (List ZipFile)) : Importer :=
  { imports := [("unsafe", typesUnsafePkg)]
    mapped := ma
    stdlib := sa
    unmapped := ua
    stdlibZip := stdlibZip.map fun z => newZipReader z ctxt }

/-- The stdlib-zip selection loop of `NewFromZips`: the first candidate
whose base name matches the architecture glob is opened; a failed
`zip.OpenReader` aborts construction. -/
def pickStdlibZip (fs : FS) (wantPattern : String) :
    List String → Except GoError (Option (List ZipFile))
  | [] => .ok none
  | dir :: rest =>
    if filepathMatchSingleStar wantPattern (filepathBase dir) then
      match fs.zipOpen dir with
      | some files => .ok (some files)
      | none => .error (.zipOpenError dir)
    else pickStdlibZip fs wantPattern rest

/-- The mapped-archive construction loop of `NewFromZips`: each entry
must split on `":"` into exactly an import path and a file path;
otherwise construction fails naming the malformed entry's parts. -/
def buildMappedPkgs : List String → Except GoError (List (String × String))
  | [] => .ok []
  | archive :: rest =>
    let nameAndFile := splitOnChar ':' archive
    match nameAndFile with
    | [name, file] =>
      match buildMappedPkgs rest with
      | .ok pkgs => .ok ((name, file) :: pkgs)
      | .error e => .error e
    | _ => .error (.malformedArchive nameAndFile)

/-- `NewFromZips`: picks the stdlib zip by glob over the candidates'
base names, builds the mapped-archive map (failing on a malformed
entry), wraps the stdlib archive and unmapped archive lists, and calls
`New`. -/
def NewFromZips (fs : FS) (ctxt : BuildContext)
    (unmappedArchs mappedArchs stdlibArchs stdlibZips : List String) :
    Except GoError Importer :=
  let ctxtWithWildcard := { ctxt with GOARCH := ctxt.GOARCH ++ "*" }
  let wantPattern := goEnvDir ctxtWithWildcard ++ ".x.zip"
  match pickStdlibZip fs wantPattern stdlibZips with
  | .error e => .error e
  | .ok stdlib =>
    match buildMappedPkgs mappedArchs with
    | .error e => .error e
    | .ok pkgs =>
      let ma : MappedArchives := { pkgs := pkgs }
      let sa : StdlibArchives := { ctxt := ctxt, archs := stdlibArchs }
      let ua : UnmappedArchives := { archs := unmappedArchs }
      .ok (New ctxt (some ua) (some ma) (some sa) stdlib)

/-- The external decoding collaborator (`gcexportdata`):
`newReaderOk` models whether `gcexportdata.NewReader` succeeds on a
stream, and `read` models `gcexportdata.Read`, which mutates the
shared import cache (so it returns the new cache in either outcome)
and produces a package or an error. -/
structure Decoder where
  newReaderOk : Stream → Bool
  read : Stream → List (String × Package) → String →
    List (String × Package) × Except GoError Package

/-- The contract `gcexportdata.Read` documents for a successful decode:
the returned package is complete and is recorded in the shared cache
under the import path being decoded. -/
def Decoder.Good (d : Decoder) : Prop :=
  ∀ s cache path cache' pkg, d.read s cache path = (cache', .ok pkg) →
    pkg.complete = true ∧ goMapLookup cache' path = some pkg

/-- The observable outcome of one `Import` call: the result, the
updated importer, the strategies invoked, the stream `find` produced,
the streams closed, and the number of decode calls. -/
structure ImportOut where
  res : Except GoError Package
  state : Importer
  calls : List Finder
  found : Option Stream
  closes : List Stream
  decodes : Nat
deriving Repr

/-- The exact-match strategies in the order `Import` appends them:
bundle (zip) first, then mapped archives. -/
def Importer.exactFinders (i : Importer) : List Finder :=
  (match i.stdlibZip with | some z => [Finder.zip z] | none => []) ++
  (match i.mapped with | some m => [Finder.mapped m] | none => [])

/-- The suffix-match strategies in the order `Import` appends them:
stdlib archives first, then unmapped archives. -/
def Importer.suffixFinders (i : Importer) : List Finder :=
  (match i.stdlib with | some s => [Finder.stdlib s] | none => []) ++
  (match i.unmapped with | some u => [Finder.unmapped u] | none => [])

/-- The strategy chain `Import` builds: bundle (zip), mapped, stdlib,
unmapped — each only when configured. -/
def Importer.finderChain (i : Importer) : List Finder :=
  i.exactFinders ++ i.suffixFinders

/-- The slow path of `Import` (cache missed or entry incomplete): run
the strategy chain; on no match fail not-found with the import path;
on a match, the stream is closed on every exit (deferred close):
reader-construction failure, decode failure, decode success. -/
def Importer.importSlow (fs : FS) (d : Decoder) (i : Importer) (importPath : String) :
    ImportOut :=
  let fr := findWithTrace fs (i.finderChain.map some) importPath
  match fr.1 with
  | none =>
    { res := .error (.notFound importPath), state := i, calls := fr.2
      found := none, closes := [], decodes := 0 }
  | some file =>
    if d.newReaderOk file then
      let rr := d.read file i.imports importPath
      { res := rr.2, state := { i with imports := rr.1 }, calls := fr.2
        found := some file, closes := [file], decodes := 1 }
    else
      { res := .error (.newReaderError file), state := i, calls := fr.2
        found := some file, closes := [file], decodes := 0 }

/-- `Importer.Import`: if the cache holds a complete entry for the
path, return it with no strategy invocation, no stream and no decode;
otherwise take the slow path. -/
def Importer.importPkg (fs : FS) (d : Decoder) (i : Importer) (importPath : String) :
    ImportOut :=
  match goMapLookup i.imports importPath with
  | some pkg =>
    if pkg.complete then
      { res := .ok pkg, state := i, calls := [], found := none, closes := [], decodes := 0 }
    else i.importSlow fs d importPath
  | none => i.importSlow fs d importPath

deriving instance DecidableEq for Except

/-- The Boolean condition of the `Import` fast path: the cache holds a
complete entry for the path. -/
def cacheHitComplete (i : Importer) (path : String) : Bool :=
  match goMapLookup i.imports path with
  | some pkg => pkg.complete
  | none => false

/-! ### Shared lemmas about the strategy chain walk and the cache -/

theorem findWithTrace_append_some {fs : FS} {xs : List (Option Finder)} {pkg : String}
    (ys : List (Option Finder)) (h : (findWithTrace fs xs pkg).1.isSome) :
    findWithTrace fs (xs ++ ys) pkg = findWithTrace fs xs pkg := by
  induction xs with
  | nil => simp [findWithTrace] at h
  | cons x rest ih =>
    cases x with
    | none =>
      simp only [findWithTrace] at h ⊢
      exact ih h
    | some f =>
      rw [List.cons_append]
      cases hf : f.findAndOpen fs pkg with
      | some s => simp [findWithTrace, hf]
      | none =>
        simp only [findWithTrace, hf] at h ⊢
        rw [ih h]

theorem findWithTrace_append_none {fs : FS} {xs : List (Option Finder)} {pkg : String}
    (ys : List (Option Finder)) (h : (findWithTrace fs xs pkg).1 = none) :
    (findWithTrace fs (xs ++ ys) pkg).1 = (findWithTrace fs ys pkg).1 ∧
      (findWithTrace fs (xs ++ ys) pkg).2 =
        (findWithTrace fs xs pkg).2 ++ (findWithTrace fs ys pkg).2 := by
  induction xs with
  | nil => simp [findWithTrace]
  | cons x rest ih =>
    cases x with
    | none =>
      simp only [findWithTrace] at h ⊢
      exact ih h
    | some f =>
      rw [List.cons_append]
      cases hf : f.findAndOpen fs pkg with
      | some s => simp [findWithTrace, hf] at h
      | none =>
        simp only [findWithTrace, hf] at h ⊢
        exact ⟨(ih h).1, by rw [(ih h).2]; simp⟩

theorem findWithTrace_none_iff {fs : FS} {l : List (Option Finder)} {pkg : String} :
    (findWithTrace fs l pkg).1 = none ↔
      ∀ f ∈ l.filterMap id, f.findAndOpen fs pkg = none := by
  induction l with
  | nil => simp [findWithTrace]
  | cons x rest ih =>
    cases x with
    | none => simpa [findWithTrace] using ih
    | some f =>
      cases hf : f.findAndOpen fs pkg with
      | some s => simp [findWithTrace, hf]
      | none => simpa [findWithTrace, hf] using ih

theorem findWithTrace_trace_of_none {fs : FS} {l : List (Option Finder)} {pkg : String}
    (h : (findWithTrace fs l pkg).1 = none) :
    (findWithTrace fs l pkg).2 = l.filterMap id := by
  induction l with
  | nil => simp [findWithTrace]
  | cons x rest ih =>
    cases x with
    | none =>
      simp only [findWithTrace] at h ⊢
      simpa using ih h
    | some f =>
      cases hf : f.findAndOpen fs pkg with
      | some s => simp [findWithTrace, hf] at h
      | none =>
        simp only [findWithTrace, hf] at h ⊢
        simpa using ih h

theorem findWithTrace_some_spec {fs : FS} {l : List (Option Finder)} {pkg : String}
    {s : Stream} (h : (findWithTrace fs l pkg).1 = some s) :
    ∃ pre f post, l.filterMap id = pre ++ f :: post ∧
      (∀ g ∈ pre, g.findAndOpen fs pkg = none) ∧
      f.findAndOpen fs pkg = some s ∧
      (findWithTrace fs l pkg).2 = pre ++ [f] := by
  induction l with
  | nil => simp [findWithTrace] at h
  | cons x rest ih =>
    cases x with
    | none =>
      simp only [findWithTrace] at h ⊢
      simpa using ih h
    | some f =>
      cases hf : f.findAndOpen fs pkg with
      | some s' =>
        simp only [findWithTrace, hf] at h ⊢
        obtain rfl : s' = s := by simpa using h
        exact ⟨[], f, rest.filterMap id, by simp, by simp, hf, by simp⟩
      | none =>
        simp only [findWithTrace, hf] at h ⊢
        obtain ⟨pre, g, post, hsplit, hpre, hg, htr⟩ := ih h
        refine ⟨f :: pre, g, post, by simp [hsplit], ?_, hg, by simp [htr]⟩
        intro g' hg'
        rcases List.mem_cons.mp hg' with rfl | hmem
        · exact hf
        · exact hpre g' hmem

theorem importPkg_eq_slow {fs : FS} {d : Decoder} {i : Importer} {path : String}
    (h : cacheHitComplete i path = false) :
    i.importPkg fs d path = i.importSlow fs d path := by
  simp only [cacheHitComplete] at h
  simp only [Importer.importPkg]
  cases hl : goMapLookup i.imports path with
  | none => simp
  | some pkg =>
    simp only [hl] at h
    simp [h]

theorem importPkg_fast {fs : FS} {d : Decoder} {i : Importer} {path : String} {pkg : Package}
    (hl : goMapLookup i.imports path = some pkg) (hc : pkg.complete = true) :
    i.importPkg fs d path =
      { res := .ok pkg, state := i, calls := [], found := none, closes := [], decodes := 0 } := by
  simp only [Importer.importPkg, hl, hc, if_true]

/-- After a successful slow-path `Import` under a well-behaved decoder,
the resulting importer's cache holds the returned package, complete. -/
theorem importSlow_ok_cached {fs : FS} {d : Decoder} {i : Importer} {path : String}
    {pkg : Package} (hd : d.Good) (h : (i.importSlow fs d path).res = .ok pkg) :
    goMapLookup (i.importSlow fs d path).state.imports path = some pkg ∧
      pkg.complete = true := by
  simp only [Importer.importSlow] at h ⊢
  cases hfind : (findWithTrace fs (i.finderChain.map some) path).1 with
  | none => simp only [hfind] at h; simp at h
  | some file =>
    simp only [hfind] at h ⊢
    by_cases hr : d.newReaderOk file
    · simp only [hr, if_true] at h ⊢
      have heq : d.read file i.imports path = ((d.read file i.imports path).1, .ok pkg) := by
        rw [← h]
      have hgood := hd file i.imports path (d.read file i.imports path).1 pkg heq
      exact ⟨hgood.2, hgood.1⟩
    · simp only [hr, if_false] at h
      simp at h

/-- After any successful `Import` under a well-behaved decoder, the
resulting importer's cache holds the returned package, complete. -/
theorem importPkg_ok_cached {fs : FS} {d : Decoder} {i : Importer} {path : String}
    {pkg : Package} (hd : d.Good) (h : (i.importPkg fs d path).res = .ok pkg) :
    goMapLookup (i.importPkg fs d path).state.imports path = some pkg ∧
      pkg.complete = true := by
  simp only [Importer.importPkg] at h ⊢
  cases hl : goMapLookup i.imports path with
  | some pkg0 =>
    simp only [hl] at h ⊢
    by_cases hc : pkg0.complete
    · simp only [hc, if_true] at h ⊢
      obtain rfl : pkg0 = pkg := by simpa using h
      exact ⟨hl, hc⟩
    · simp only [hc, if_false] at h ⊢
      exact importSlow_ok_cached hd h
  | none =>
    simp only [hl] at h ⊢
    exact importSlow_ok_cached hd h

theorem goMapLookup_append_last {α : Type} (m : List (String × α)) (k : String) (v : α) :
    goMapLookup (m ++ [(k, v)]) k = some v := by
  simp [goMapLookup, List.foldl_append]

/-! ### Concrete fixtures used by the witness theorems -/

/-- A linux/amd64 build context with no install suffix. -/
def ctxtW : BuildContext := { GOOS := "linux", GOARCH := "amd64", InstallSuffix := "" }

/-- A filesystem with no directories where every file open succeeds and
no zip opens. -/
def fsW : FS :=
  { isDir := fun _ => false, openOk := fun _ => true, zipOpen := fun _ => none }

/-- A filesystem where opening the file `m/errors.a` fails and every
other open succeeds. -/
def fsFailW : FS :=
  { isDir := fun _ => false
    openOk := fun p => decide (p ≠ "m/errors.a")
    zipOpen := fun _ => none }

/-- A decoder that always succeeds, returning a complete package for
the requested path and recording it in the cache. -/
def decW : Decoder :=
  { newReaderOk := fun _ => true
    read := fun _ cache path =>
      (cache ++ [(path, { path := path, complete := true })],
       .ok { path := path, complete := true }) }

theorem decW_good : decW.Good := by
  intro s cache path cache2 pkg h
  have h1 := congrArg Prod.fst h
  have h2 := congrArg Prod.snd h
  simp only [decW] at h1 h2
  obtain rfl : ({ path := path, complete := true } : Package) = pkg := by
    simpa using h2
  exact ⟨rfl, by rw [← h1]; exact goMapLookup_append_last ..⟩

/-- An importer whose stdlib suffix store holds `errors` and whose
unmapped suffix store holds a third-party path ending in `/errors`. -/
def impW : Importer :=
  New ctxtW (some { archs := ["third/vendor/errors.x"] }) none
    (some { ctxt := ctxtW, archs := ["root/linux_amd64/errors.a"] }) none

/-- An importer whose exact mapped store and whose unmapped suffix
store both hold `errors`, with different backing files. -/
def impExactW : Importer :=
  New ctxtW (some { archs := ["x/errors.x"] })
    (some { pkgs := [("errors", "m/errors.a")] }) none none

/-- An importer whose only store is a mapped store sending `errors` to
the file `m/errors.a` (whose open `fsFailW` refuses). -/
def impMappedW : Importer :=
  New ctxtW none (some { pkgs := [("errors", "m/errors.a")] }) none none

/-! ### The claims -/

/-- C1: for an import path not satisfied by the cache, `Import` builds
the strategy chain in the fixed order bundle (zip), mapped-archive,
stdlib directory/archive, unmapped-archive — exact-match strategies
strictly before suffix-match strategies — so whenever the exact-match
part of the chain produces a stream, that stream is the one handed to
the decoder, whatever the suffix-match stores contain. -/
theorem C1_exact_before_suffix :
    (∀ (i : Importer) (z : ZipReader) (m : MappedArchives) (sa : StdlibArchives)
        (ua : UnmappedArchives), i.stdlibZip = some z → i.mapped = some m →
        i.stdlib = some sa → i.unmapped = some ua →
        i.finderChain = [Finder.zip z, Finder.mapped m, Finder.stdlib sa, Finder.unmapped ua]) ∧
    (∀ i : Importer, i.finderChain = i.exactFinders ++ i.suffixFinders) ∧
    (∀ (fs : FS) (d : Decoder) (i : Importer) (path : String) (s : Stream),
        cacheHitComplete i path = false →
        (findWithTrace fs (i.exactFinders.map some) path).1 = some s →
        (i.importPkg fs d path).found = some s) := by
  refine ⟨?_, fun i => rfl, ?_⟩
  · intro i z m sa ua hz hm hs hu
    simp [Importer.finderChain, Importer.exactFinders, Importer.suffixFinders, hz, hm, hs, hu]
  · intro fs d i path s hmiss hexact
    rw [importPkg_eq_slow hmiss]
    simp only [Importer.importSlow]
    have hchain : i.finderChain.map some =
        i.exactFinders.map some ++ i.suffixFinders.map some := by
      simp [Importer.finderChain]
    rw [hchain, findWithTrace_append_some _ (by rw [hexact]; rfl), hexact]
    by_cases hr : d.newReaderOk s <;> simp [hr]

/-- Witness for C1: `errors` is present in both the exact mapped store
and the suffix unmapped store with different content; the mapped
store's stream is used. -/
theorem C1_exact_before_suffix_witness :
    (impExactW.importPkg fsW decW "errors").found = some (Stream.file "m/errors.a") :=
  C1_exact_before_suffix.2.2 fsW decW impExactW "errors" (Stream.file "m/errors.a")
    (by decide) (by decide)

/-- C2: a complete cache entry is returned immediately — no strategy
invoked, no stream found or closed, no decode; consequently, under a
decoder meeting the `gcexportdata.Read` contract, after any successful
`Import` a second `Import` of the same path returns the identical
descriptor with no further strategy invocation or I/O; and a cached
but incomplete entry does not take the fast path: the call is the slow
re-resolution. -/
theorem C2_cache_fast_path :
    (∀ (fs : FS) (d : Decoder) (i : Importer) (path : String) (pkg : Package),
        goMapLookup i.imports path = some pkg → pkg.complete = true →
        i.importPkg fs d path =
          { res := .ok pkg, state := i, calls := [], found := none, closes := [],
            decodes := 0 }) ∧
    (∀ (fs : FS) (d : Decoder) (i : Importer) (path : String) (pkg : Package),
        d.Good → (i.importPkg fs d path).res = .ok pkg →
        (i.importPkg fs d path).state.importPkg fs d path =
          { res := .ok pkg, state := (i.importPkg fs d path).state, calls := [],
            found := none, closes := [], decodes := 0 }) ∧
    (∀ (fs : FS) (d : Decoder) (i : Importer) (path : String),
        cacheHitComplete i path = false →
        i.importPkg fs d path = i.importSlow fs d path) := by
  refine ⟨fun fs d i path pkg hl hc => importPkg_fast hl hc, ?_,
    fun fs d i path h => importPkg_eq_slow h⟩
  intro fs d i path pkg hd h
  obtain ⟨hl, hc⟩ := importPkg_ok_cached hd h
  exact importPkg_fast hl hc

/-- Witness for C2: after importing `errors` once through the unmapped
store, the second import returns the identical cached descriptor with
no strategy invocation, no stream and no decode. -/
theorem C2_cache_fast_path_witness :
    (impW.importPkg fsW decW "errors").state.importPkg fsW decW "errors" =
      { res := .ok { path := "errors", complete := true },
        state := (impW.importPkg fsW decW "errors").state, calls := [], found := none,
        closes := [], decodes := 0 } :=
  C2_cache_fast_path.2.1 fsW decW impW "errors" { path := "errors", complete := true }
    decW_good (by decide)

/-- C3: with no complete cache entry and no strategy returning a
stream, `Import` returns a not-found error carrying the import path
and no descriptor; in particular, with zero configured strategies
every path other than `unsafe` fails not-found. -/
theorem C3_not_found :
    (∀ (fs : FS) (d : Decoder) (i : Importer) (path : String),
        cacheHitComplete i path = false →
        (findWithTrace fs (i.finderChain.map some) path).1 = none →
        (i.importPkg fs d path).res = .error (.notFound path) ∧
          (i.importPkg fs d path).found = none ∧ (i.importPkg fs d path).decodes = 0) ∧
    (∀ (fs : FS) (d : Decoder) (ctxt : BuildContext) (path : String),
        path ≠ "unsafe" →
        ((New ctxt none none none none).importPkg fs d path).res =
          .error (.notFound path)) := by
  constructor
  · intro fs d i path hmiss hfind
    rw [importPkg_eq_slow hmiss]
    simp [Importer.importSlow, hfind]
  · intro fs d ctxt path hne
    have hmiss : cacheHitComplete (New ctxt none none none none) path = false := by
      simp [cacheHitComplete, New, goMapLookup, Ne.symm hne]
    rw [importPkg_eq_slow hmiss]
    simp only [Importer.importSlow]
    have hchain : (New ctxt none none none none).finderChain = [] := rfl
    rw [hchain]
    rfl

/-- Witness for C3: with zero strategies, importing `fmt` fails with a
not-found error carrying `fmt`. -/
theorem C3_not_found_witness :
    ((New ctxtW none none none none).importPkg fsW decW "fmt").res =
      .error (.notFound "fmt") :=
  C3_not_found.2 fsW decW ctxtW "fmt" (by decide)

/-- C4: every importer made by `New` has its cache pre-seeded with
exactly the built-in `unsafe` pseudo-module, that entry is complete,
and importing `unsafe` succeeds from the cache with no strategy
invocation and no I/O, under any strategy configuration including the
empty one. -/
theorem C4_unsafe_preseeded :
    (∀ (ctxt : BuildContext) (ua : Option UnmappedArchives) (ma : Option MappedArchives)
        (sa : Option StdlibArchives) (z : Option (List ZipFile)),
        (New ctxt ua ma sa z).imports = [("unsafe", typesUnsafePkg)]) ∧
    typesUnsafePkg.complete = true ∧
    (∀ (fs : FS) (d : Decoder) (ctxt : BuildContext) (ua : Option UnmappedArchives)
        (ma : Option MappedArchives) (sa : Option StdlibArchives) (z : Option (List ZipFile)),
        (New ctxt ua ma sa z).importPkg fs d "unsafe" =
          { res := .ok typesUnsafePkg, state := New ctxt ua ma sa z, calls := [],
            found := none, closes := [], decodes := 0 }) := by
  refine ⟨fun _ _ _ _ _ => rfl, rfl, ?_⟩
  intro fs d ctxt ua ma sa z
  exact importPkg_fast (by simp [New, goMapLookup]) rfl

theorem length_two_form {α : Type} {l : List α} (h : l.length = 2) : ∃ a b, l = [a, b] := by
  match l, h with
  | [a, b], _ => exact ⟨a, b, rfl⟩

theorem buildMappedPkgs_malformed {pre : List String} {bad : String} (post : List String)
    (hpre : ∀ g ∈ pre, (splitOnChar ':' g).length = 2)
    (hbad : (splitOnChar ':' bad).length ≠ 2) :
    buildMappedPkgs (pre ++ bad :: post) =
      .error (.malformedArchive (splitOnChar ':' bad)) := by
  induction pre with
  | nil =>
    rw [List.nil_append]
    rcases hsp : splitOnChar ':' bad with _ | ⟨a, _ | ⟨b, _ | ⟨c, t⟩⟩⟩
    · simp [buildMappedPkgs, hsp]
    · simp [buildMappedPkgs, hsp]
    · exact absurd (by rw [hsp]; rfl) hbad
    · simp [buildMappedPkgs, hsp]
  | cons g rest ih =>
    obtain ⟨n, f, hnf⟩ := length_two_form (hpre g (List.mem_cons_self ..))
    rw [List.cons_append]
    simp only [buildMappedPkgs, hnf]
    rw [ih fun g2 hg2 => hpre g2 (List.mem_cons_of_mem _ hg2)]

theorem buildMappedPkgs_wf {ms : List String}
    (h : ∀ g ∈ ms, (splitOnChar ':' g).length = 2) :
    ∃ pkgs, buildMappedPkgs ms = .ok pkgs := by
  induction ms with
  | nil => exact ⟨[], rfl⟩
  | cons g rest ih =>
    obtain ⟨n, f, hnf⟩ := length_two_form (h g (List.mem_cons_self ..))
    obtain ⟨pkgs, hp⟩ := ih fun g2 hg2 => h g2 (List.mem_cons_of_mem _ hg2)
    exact ⟨(n, f) :: pkgs, by simp [buildMappedPkgs, hnf, hp]⟩

/-- C5: a mapped-archive configuration entry that does not split into
exactly one import path and one file path around `":"` makes
`NewFromZips` fail (once the stdlib-zip phase is past) with an error
naming the first such malformed entry's parts, returning no importer;
when every entry has exactly one separator, construction succeeds. -/
theorem C5_malformed_mapped :
    (∀ (fs : FS) (ctxt : BuildContext) (ua ms sa st : List String)
        (zr : Option (List ZipFile)) (pre post : List String) (bad : String),
        pickStdlibZip fs (goEnvDir { ctxt with GOARCH := ctxt.GOARCH ++ "*" } ++ ".x.zip") st =
          .ok zr →
        ms = pre ++ bad :: post →
        (∀ g ∈ pre, (splitOnChar ':' g).length = 2) →
        (splitOnChar ':' bad).length ≠ 2 →
        NewFromZips fs ctxt ua ms sa st =
          .error (.malformedArchive (splitOnChar ':' bad))) ∧
    (∀ (fs : FS) (ctxt : BuildContext) (ua ms sa st : List String)
        (zr : Option (List ZipFile)),
        pickStdlibZip fs (goEnvDir { ctxt with GOARCH := ctxt.GOARCH ++ "*" } ++ ".x.zip") st =
          .ok zr →
        (∀ g ∈ ms, (splitOnChar ':' g).length = 2) →
        ∃ imp, NewFromZips fs ctxt ua ms sa st = .ok imp) := by
  constructor
  · intro fs ctxt ua ms sa st zr pre post bad hz hms hpre hbad
    subst hms
    simp only [NewFromZips, hz, buildMappedPkgs_malformed post hpre hbad]
  · intro fs ctxt ua ms sa st zr hz hwf
    obtain ⟨pkgs, hp⟩ := buildMappedPkgs_wf hwf
    exact ⟨New ctxt (some { archs := ua }) (some { pkgs := pkgs })
      (some { ctxt := ctxt, archs := sa }) zr, by simp only [NewFromZips, hz, hp]⟩

/-- Witness for C5: the entry `onlyonename` (no separator) makes
construction fail with the error naming it, before any import is
possible. -/
theorem C5_malformed_mapped_witness :
    NewFromZips fsW ctxtW [] ["onlyonename"] [] [] =
      .error (.malformedArchive (splitOnChar ':' "onlyonename")) :=
  C5_malformed_mapped.1 fsW ctxtW [] ["onlyonename"] [] [] none [] [] "onlyonename"
    rfl rfl (by intro g hg; cases hg) (by decide)

/-- C6: when the exact-match strategies produce nothing and the stdlib
directory/archive strategy produces a stream for an import path not
satisfied by the cache, that stream is the one `Import` uses — the
unmapped suffix strategy is never consulted first, so a longer
third-party suffix match can never shadow a standard-library match. -/
theorem C6_stdlib_before_unmapped :
    ∀ (fs : FS) (d : Decoder) (i : Importer) (path : String) (sa : StdlibArchives)
      (s : Stream),
      cacheHitComplete i path = false →
      (findWithTrace fs (i.exactFinders.map some) path).1 = none →
      i.stdlib = some sa →
      StdlibArchives.findAndOpen fs sa path = some s →
      (i.importPkg fs d path).found = some s := by
  intro fs d i path sa s hmiss hexact hs hfind
  rw [importPkg_eq_slow hmiss]
  simp only [Importer.importSlow]
  have hchain : i.finderChain.map some =
      i.exactFinders.map some ++
        (some (Finder.stdlib sa) ::
          (match i.unmapped with
            | some u => [Finder.unmapped u]
            | none => []).map some) := by
    simp [Importer.finderChain, Importer.suffixFinders, hs]
  rw [hchain]
  have happ := findWithTrace_append_none
    (some (Finder.stdlib sa) ::
      (match i.unmapped with
        | some u => [Finder.unmapped u]
        | none => []).map some) hexact
  rw [happ.1]
  have htail : (findWithTrace fs
      (some (Finder.stdlib sa) ::
        (match i.unmapped with
          | some u => [Finder.unmapped u]
          | none => []).map some) path).1 = some s := by
    simp [findWithTrace, Finder.findAndOpen, hfind]
  rw [htail]
  by_cases hr : d.newReaderOk s <;> simp [hr]

/-- Witness for C6: `errors` suffix-matches both the configured stdlib
archive file and a longer third-party unmapped archive file; the
stdlib stream is used. -/
theorem C6_stdlib_before_unmapped_witness :
    (impW.importPkg fsW decW "errors").found =
      some (Stream.file "root/linux_amd64/errors.a") :=
  C6_stdlib_before_unmapped fsW decW impW "errors"
    { ctxt := ctxtW, archs := ["root/linux_amd64/errors.a"] }
    (Stream.file "root/linux_amd64/errors.a") (by decide) rfl rfl (by decide)

/-- C7: the chain walk `find` queries the configured finders strictly
in list order (`nil` entries skipped): if it returns a stream there is
a first matching finder, every finder before it returned nothing, the
stream is that finder's, and no finder after it was invoked; it
returns nothing exactly when every finder in the list returns nothing
(and then all were invoked, in order). -/
theorem C7_first_match_wins :
    ∀ (fs : FS) (l : List (Option Finder)) (pkg : String),
      ((findWithTrace fs l pkg).1 = none ↔
        ∀ f ∈ l.filterMap id, f.findAndOpen fs pkg = none) ∧
      ((findWithTrace fs l pkg).1 = none →
        (findWithTrace fs l pkg).2 = l.filterMap id) ∧
      (∀ s, (findWithTrace fs l pkg).1 = some s →
        ∃ pre f post, l.filterMap id = pre ++ f :: post ∧
          (∀ g ∈ pre, g.findAndOpen fs pkg = none) ∧
          f.findAndOpen fs pkg = some s ∧
          (findWithTrace fs l pkg).2 = pre ++ [f]) :=
  fun _ _ _ =>
    ⟨findWithTrace_none_iff, findWithTrace_trace_of_none,
      fun _ h => findWithTrace_some_spec h⟩

/-- Two mapped stores used by the C7 witness: the first misses `q`,
the second holds it. -/
def mW1 : MappedArchives := { pkgs := [("p", "f1")] }

/-- Second mapped store for the C7 witness. -/
def mW2 : MappedArchives := { pkgs := [("q", "f2")] }

/-- Witness for C7: with two finders of which only the second matches
`q`, the walk returns the second finder's stream, having invoked the
first (which returned nothing) and then the second, in order. -/
theorem C7_first_match_wins_witness :
    ∃ pre f post,
      ([some (Finder.mapped mW1), some (Finder.mapped mW2)].filterMap id) =
        pre ++ f :: post ∧
      (∀ g ∈ pre, g.findAndOpen fsW "q" = none) ∧
      f.findAndOpen fsW "q" = some (Stream.file "f2") ∧
      (findWithTrace fsW [some (Finder.mapped mW1), some (Finder.mapped mW2)] "q").2 =
        pre ++ [f] :=
  (C7_first_match_wins fsW [some (Finder.mapped mW1), some (Finder.mapped mW2)] "q").2.2
    (Stream.file "f2") (by decide)

theorem importSlow_closes (fs : FS) (d : Decoder) (i : Importer) (path : String) :
    ((i.importSlow fs d path).found = none → (i.importSlow fs d path).closes = []) ∧
    (∀ s, (i.importSlow fs d path).found = some s →
      (i.importSlow fs d path).closes = [s]) := by
  simp only [Importer.importSlow]
  cases hfind : (findWithTrace fs (i.finderChain.map some) path).1 with
  | none => simp
  | some file => by_cases hr : d.newReaderOk file <;> simp [hr]

/-- C8: whenever a strategy produced a stream for an `Import` call,
that stream is closed exactly once before the call returns — on the
reader-construction-failure, decode-failure and decode-success paths
alike — and no stream is closed when none was found. -/
theorem C8_stream_closed_once :
    ∀ (fs : FS) (d : Decoder) (i : Importer) (path : String),
      ((i.importPkg fs d path).found = none → (i.importPkg fs d path).closes = []) ∧
      (∀ s, (i.importPkg fs d path).found = some s →
        (i.importPkg fs d path).closes = [s]) := by
  intro fs d i path
  cases hl : goMapLookup i.imports path with
  | some pkg =>
    by_cases hc : pkg.complete
    · rw [importPkg_fast hl hc]
      exact ⟨fun _ => rfl, fun s hs => by simp at hs⟩
    · rw [importPkg_eq_slow (by simp [cacheHitComplete, hl, hc])]
      exact importSlow_closes fs d i path
  | none =>
    rw [importPkg_eq_slow (by simp [cacheHitComplete, hl])]
    exact importSlow_closes fs d i path

/-- Witness for C8: the import of `errors` through `impW` finds the
stdlib archive stream and closes exactly that stream once. -/
theorem C8_stream_closed_once_witness :
    (impW.importPkg fsW decW "errors").closes =
      [Stream.file "root/linux_amd64/errors.a"] :=
  (C8_stream_closed_once fsW decW impW "errors").2
    (Stream.file "root/linux_amd64/errors.a") (by decide)

theorem stdlibFindLoop_none {fs : FS} {name : String} {archs : List String}
    (h : ∀ filename ∈ archs,
      ¬(fs.isDir filename = true ∧ fs.openOk (filepathJoin filename name) = true) ∧
      ¬(hasSuf filename name = true ∧ fs.openOk filename = true)) :
    stdlibFindLoop fs name archs = none := by
  induction archs with
  | nil => rfl
  | cons filename rest ih =>
    have hf := h filename (List.mem_cons_self ..)
    simp only [stdlibFindLoop, if_neg hf.1, if_neg hf.2]
    exact ih fun g hg => h g (List.mem_cons_of_mem _ hg)

theorem unmappedFindLoop_none {fs : FS} {name : String} {archs : List String}
    (h : ∀ filename ∈ archs,
      ¬(hasSuf filename name = true ∧ fs.openOk filename = true)) :
    unmappedFindLoop fs name archs = none := by
  induction archs with
  | nil => rfl
  | cons filename rest ih =>
    simp only [unmappedFindLoop, if_neg (h filename (List.mem_cons_self ..))]
    exact ih fun g hg => h g (List.mem_cons_of_mem _ hg)

theorem pickStdlibZip_error {fs : FS} {pat : String} {st : List String} {e : GoError}
    (h : pickStdlibZip fs pat st = .error e) : ∃ p, e = .zipOpenError p := by
  induction st with
  | nil => simp [pickStdlibZip] at h
  | cons dir rest ih =>
    simp only [pickStdlibZip] at h
    by_cases hm : filepathMatchSingleStar pat (filepathBase dir)
    · rw [if_pos hm] at h
      cases hz : fs.zipOpen dir with
      | some files => rw [hz] at h; simp at h
      | none =>
        rw [hz] at h
        exact ⟨dir, by injection h with h2; exact h2.symm⟩
    · rw [if_neg hm] at h
      exact ih h

theorem buildMappedPkgs_error {ms : List String} {e : GoError}
    (h : buildMappedPkgs ms = .error e) : ∃ parts, e = .malformedArchive parts := by
  induction ms with
  | nil => simp [buildMappedPkgs] at h
  | cons g rest ih =>
    rcases hsp : splitOnChar ':' g with _ | ⟨a, _ | ⟨b, _ | ⟨c, t⟩⟩⟩ <;>
      simp only [buildMappedPkgs, hsp] at h
    · exact ⟨_, by injection h with h2; exact h2.symm⟩
    · exact ⟨_, by injection h with h2; exact h2.symm⟩
    · cases hb : buildMappedPkgs rest with
      | ok pkgs => rw [hb] at h; simp at h
      | error e2 =>
        rw [hb] at h
        injection h with h2
        exact ih (h2 ▸ hb)
    · exact ⟨_, by injection h with h2; exact h2.symm⟩

/-- C9: each strategy's `findAndOpen` is a total function that signals
a miss by returning no stream, never an error: a missing bundle-index
key, a missing map key, or a candidate list in which nothing matches
all yield `none`; the only errors the construction/lookup pipeline
produces are configuration errors from `NewFromZips` (a malformed
mapped entry or an unreadable stdlib zip), raised before any lookup. -/
theorem C9_miss_is_absent :
    (∀ (z : ZipReader) (pkg : String),
        goMapLookup (z.files.map fun f => (f.name, f))
          (goEnvDir z.ctxt ++ "/" ++ trimPre "google3/" pkg ++ ".x") = none →
        z.findAndOpen pkg = none) ∧
    (∀ (fs : FS) (a : MappedArchives) (pkg : String),
        goMapLookup a.pkgs pkg = none →
        MappedArchives.findAndOpen fs a pkg = none) ∧
    (∀ (fs : FS) (a : StdlibArchives) (pkg : String),
        (∀ filename ∈ a.archs,
          ¬(fs.isDir filename = true ∧
              fs.openOk (filepathJoin filename
                ("/" ++ goEnvDir a.ctxt ++ "/" ++ pkg ++ ".a")) = true) ∧
          ¬(hasSuf filename ("/" ++ goEnvDir a.ctxt ++ "/" ++ pkg ++ ".a") = true ∧
              fs.openOk filename = true)) →
        StdlibArchives.findAndOpen fs a pkg = none) ∧
    (∀ (fs : FS) (a : UnmappedArchives) (pkg : String),
        (∀ filename ∈ a.archs,
          ¬(hasSuf filename ("/" ++ trimPre "google3/" pkg ++ ".x") = true ∧
              fs.openOk filename = true)) →
        UnmappedArchives.findAndOpen fs a pkg = none) ∧
    (∀ (fs : FS) (ctxt : BuildContext) (ua ms sa st : List String) (e : GoError),
        NewFromZips fs ctxt ua ms sa st = .error e →
        (∃ parts, e = .malformedArchive parts) ∨ (∃ p, e = .zipOpenError p)) := by
  refine ⟨?_, ?_, ?_, ?_, ?_⟩
  · intro z pkg h
    simp only [ZipReader.findAndOpen, h]
  · intro fs a pkg h
    simp only [MappedArchives.findAndOpen, h]
  · intro fs a pkg h
    simp only [StdlibArchives.findAndOpen]
    exact stdlibFindLoop_none h
  · intro fs a pkg h
    simp only [UnmappedArchives.findAndOpen]
    exact unmappedFindLoop_none h
  · intro fs ctxt ua ms sa st e h
    simp only [NewFromZips] at h
    cases hz : pickStdlibZip fs
        (goEnvDir { ctxt with GOARCH := ctxt.GOARCH ++ "*" } ++ ".x.zip") st with
    | error e2 =>
      rw [hz] at h
      injection h with h2
      exact .inr (h2 ▸ pickStdlibZip_error hz)
    | ok zr =>
      rw [hz] at h
      cases hb : buildMappedPkgs ms with
      | error e2 =>
        rw [hb] at h
        injection h with h2
        exact .inl (h2 ▸ buildMappedPkgs_error hb)
      | ok pkgs => rw [hb] at h; simp at h

/-- Witness for C9: a mapped store with no entry for `fmt` reports a
miss, not an error. -/
theorem C9_miss_is_absent_witness :
    MappedArchives.findAndOpen fsW mW1 "fmt" = none :=
  C9_miss_is_absent.2.1 fsW mW1 "fmt" (by decide)

/-- C10: when a strategy's store does map the import path to a concrete
entry but opening it fails, the strategy reports a miss rather than an
error — the bundle strategy on a failed zip-entry open, the mapped
strategy on a failed file open, and the stdlib loop falls through to
the remaining candidates — so a whole `Import` whose only candidate
fails to open ends in the generic not-found error carrying just
the import path, with no mention of the failed open. -/
theorem C10_failed_open_absent :
    (∀ (z : ZipReader) (pkg : String) (f : ZipFile),
        goMapLookup (z.files.map fun f => (f.name, f))
          (goEnvDir z.ctxt ++ "/" ++ trimPre "google3/" pkg ++ ".x") = some f →
        f.openOk = false → z.findAndOpen pkg = none) ∧
    (∀ (fs : FS) (a : MappedArchives) (pkg filename : String),
        goMapLookup a.pkgs pkg = some filename → fs.openOk filename = false →
        MappedArchives.findAndOpen fs a pkg = none) ∧
    (∀ (fs : FS) (name filename : String) (rest : List String),
        fs.openOk (filepathJoin filename name) = false →
        fs.openOk filename = false →
        stdlibFindLoop fs name (filename :: rest) = stdlibFindLoop fs name rest) ∧
    (∀ (fs : FS) (d : Decoder) (ctxt : BuildContext) (ma : MappedArchives)
        (path filename : String),
        goMapLookup ma.pkgs path = some filename → fs.openOk filename = false →
        path ≠ "unsafe" →
        ((New ctxt none (some ma) none none).importPkg fs d path).res =
          .error (.notFound path)) := by
  refine ⟨?_, ?_, ?_, ?_⟩
  · intro z pkg f hl ho
    simp only [ZipReader.findAndOpen, hl, ho]
    simp
  · intro fs a pkg filename hl ho
    simp only [MappedArchives.findAndOpen, hl, ho]
    simp
  · intro fs name filename rest h1 h2
    simp [stdlibFindLoop, h1, h2]
  · intro fs d ctxt ma path filename hl ho hne
    have hmiss : cacheHitComplete (New ctxt none (some ma) none none) path = false := by
      simp [cacheHitComplete, New, goMapLookup, Ne.symm hne]
    rw [importPkg_eq_slow hmiss]
    have hchain : (New ctxt none (some ma) none none).finderChain =
        [Finder.mapped ma] := rfl
    have hfind : (findWithTrace fs
        ((New ctxt none (some ma) none none).finderChain.map some) path).1 = none := by
      rw [hchain]
      simp [findWithTrace, Finder.findAndOpen, MappedArchives.findAndOpen, hl, ho]
    simp only [Importer.importSlow, hfind]

/-- Witness for C10: `fsFailW` refuses to open the only mapped file for
`errors`; the import ends in the plain not-found error for `errors`. -/
theorem C10_failed_open_absent_witness :
    ((New ctxtW none (some { pkgs := [("errors", "m/errors.a")] }) none none).importPkg
        fsFailW decW "errors").res = .error (.notFound "errors") :=
  C10_failed_open_absent.2.2.2 fsFailW decW ctxtW { pkgs := [("errors", "m/errors.a")] }
    "errors" "m/errors.a" (by decide) (by decide) (by decide)

end Monoimporter
